import Mathlib

/-!
Verification of the rule-application engine of the `csv-sanity` crate.

The definitions below are a shallow embedding of the Rust source:
  * `src/transformer.rs`   — transform outcomes and errors,
  * `src/transformers/*.rs` — the eleven field transformers,
  * `src/ruleset.rs`       — rules, the priority-queue-backed ruleset,
                             `apply_rules` and `validate_rules`.

Rust strings are modelled as Lean `String` (a list of unicode scalar
values, as in Rust `char` iteration).  Character case mappings are
modelled on the ASCII range plus the German sharp s, whose uppercase
expansion `"SS"` is the one multi-character case mapping exercised by
the theorems; all other characters map to themselves, as they do in
Rust outside the special-cased Unicode ranges.
-/

namespace CsvSanity

/-- The character class `[:cntrl:]` of the regex crate: ASCII control
characters `U+0000`–`U+001F` together with `U+007F`. -/
def isRustControl (c : Char) : Bool :=
  c.toNat < 32 || c.toNat = 127

/-- The Unicode `White_Space` property, which is what both the regex
class `\s` and Rust `str::trim` (`char::is_whitespace`) test. -/
def isRustWhitespace (c : Char) : Bool :=
  (9 ≤ c.toNat && c.toNat ≤ 13) || c.toNat = 32 || c.toNat = 133 || c.toNat = 160 ||
  c.toNat = 5760 || (8192 ≤ c.toNat && c.toNat ≤ 8202) || c.toNat = 8232 ||
  c.toNat = 8233 || c.toNat = 8239 || c.toNat = 8287 || c.toNat = 12288

/-- `str::trim` on the character list: remove leading and trailing
whitespace. -/
def trimList (l : List Char) : List Char :=
  ((l.dropWhile isRustWhitespace).reverse.dropWhile isRustWhitespace).reverse

/-- `str::trim` (used by `TrimTransformer`, src/transformers/trim.rs). -/
def trimFn (s : String) : String :=
  ⟨trimList s.data⟩

/-- ASCII single-character uppercasing, the scalar core of Rust
`char::to_uppercase` on the ASCII range. -/
def charUp (c : Char) : Char :=
  if 97 ≤ c.toNat ∧ c.toNat ≤ 122 then Char.ofNat (c.toNat - 32) else c

/-- ASCII single-character lowercasing, the scalar core of Rust
`char::to_lowercase` on the ASCII range. -/
def charDown (c : Char) : Char :=
  if 65 ≤ c.toNat ∧ c.toNat ≤ 90 then Char.ofNat (c.toNat + 32) else c

/-- Rust `char::to_uppercase`, which yields a *sequence* of characters:
`'ß'` uppercases to `"SS"`; on the rest of the modelled range the
mapping is the single-character ASCII one. -/
def rustToUppercase (c : Char) : List Char :=
  if c = 'ß' then ['S', 'S'] else [charUp c]

/-- Rust `char::to_lowercase`; single-character on the modelled range. -/
def rustToLowercase (c : Char) : List Char :=
  [charDown c]

/-- A character that is part of a "word" for the purposes of
`unicode_words` (src/transformers/capitalize.rs).  The segmentation is
modelled on maximal runs of ASCII alphanumeric characters (the spec,
§9, expressly leaves the exact Unicode word-boundary algorithm open);
`'ß'` is an alphabetic character and hence a word character. -/
def isWordChar (c : Char) : Bool :=
  (48 ≤ c.toNat && c.toNat ≤ 57) || (65 ≤ c.toNat && c.toNat ≤ 90) ||
    (97 ≤ c.toNat && c.toNat ≤ 122) || c = 'ß'

/-- `unicode_words`: split into maximal runs of word characters,
discarding everything between them. -/
def splitWords : List Char → List (List Char)
  | [] => []
  | c :: cs =>
    if isWordChar c then
      (c :: cs.takeWhile isWordChar) :: splitWords (cs.dropWhile isWordChar)
    else
      splitWords cs
termination_by l => l.length
decreasing_by
  · simp only [List.length_cons]
    exact Nat.lt_succ_of_le (List.IsSuffix.length_le (List.dropWhile_suffix isWordChar))
  · simp

/-- `capitalize_word` (src/transformers/capitalize.rs): uppercase the
first character, lowercase the rest, concatenating the per-character
case expansions. -/
def capitalizeWord : List Char → List Char
  | [] => []
  | c :: cs => rustToUppercase c ++ (cs.map rustToLowercase).flatten

/-- `Vec::join(" ")`: concatenate with single spaces between entries. -/
def joinWords : List (List Char) → List Char
  | [] => []
  | [w] => w
  | w :: ws => w ++ ' ' :: joinWords ws

/-- `capitalize` on the character list: capitalize each word and
rejoin with single spaces. -/
def capListFn (l : List Char) : List Char :=
  joinWords ((splitWords l).map capitalizeWord)

/-- `capitalize` (src/transformers/capitalize.rs): capitalize each
unicode word and rejoin with single spaces. -/
def capitalizeFn (s : String) : String :=
  ⟨capListFn s.data⟩

/-- `TransformError` (src/transformer.rs). -/
structure TransformError where
  record_n : Nat
  field_name : String
  field_value : String
  reason : String
deriving DecidableEq, Repr

/-- `TransformResult` (src/transformer.rs): `Result<Option<String>, TransformError>`. -/
abbrev TransformResult := Except TransformError (Option String)

instance {ε α : Type} [DecidableEq ε] [DecidableEq α] : DecidableEq (Except ε α) := fun x y =>
  match x, y with
  | .ok a, .ok b => decidable_of_iff (a = b) (by simp)
  | .ok _, .error _ => isFalse (by simp)
  | .error _, .ok _ => isFalse (by simp)
  | .error a, .error b => decidable_of_iff (a = b) (by simp)

/-- `TransformResultHelper::present`. -/
def TransformResult.present (value : String) : TransformResult :=
  .ok (some value)

/-- `TransformResultHelper::excluded`. -/
def TransformResult.excluded : TransformResult :=
  .ok none

/-- `TransformResultHelper::error`. -/
def TransformResult.mkError (field_value field_name : String) (record_n : Nat)
    (reason : String) : TransformResult :=
  .error { record_n := record_n, field_name := field_name,
           field_value := field_value, reason := reason }

/-- Model of an external `regex::Regex` value (the regex engine is an
external collaborator): `isMatch` models `Regex::is_match`,
`capturesExpand tmpl v` models `Regex::captures(v)` followed by
`Captures::expand(tmpl)`, and `display` models the `Display` output of
the compiled pattern. -/
structure RegexM where
  isMatch : String → Bool
  capturesExpand : String → String → Option String
  display : String

/-- The language of the default blank matcher regex
`\A(?:[:cntrl:]|\s)*\z`: a possibly-empty anchored sequence of control
or whitespace characters. -/
def isBlankValue (s : String) : Bool :=
  s.data.all (fun c => isRustControl c || isRustWhitespace c)

/-- The default blank matcher regex `\A(?:[:cntrl:]|\s)*\z`
(src/transformers/none.rs, `NoneTransformer::with_blank_matcher`).
(`[:cntrl:]` is the regex-0.2-era bare POSIX class syntax.)  Capture
expansion is never used on this pattern. -/
def blankRegex : RegexM where
  isMatch := isBlankValue
  capturesExpand _ _ := none
  display := "\\A(?:[:cntrl:]|\\s)*\\z"

/-- `INTEGER_REGEX` = `\A(:?0|[1-9]\d*)\z` (src/transformers/number.rs).
Note the `(:?` in the source, which is a capture group whose first
alternative is an *optional literal colon* followed by `0` — not the
intended non-capturing `(?:`.  The language matched is therefore
`"0"`, `":0"`, or a digit `1`–`9` followed by digits. -/
def integerRegexMatch (s : String) : Bool :=
  match s.data with
  | ['0'] => true
  | [':', '0'] => true
  | c :: cs => ('1' ≤ c && c ≤ '9') && cs.all Char.isDigit
  | [] => false

/-- A character of the local part of `EMAIL_REGEX`
(src/transformers/email.rs): case-insensitive
`[a-z0-9!#$%&'*+/=?^_`{|}~-]`. -/
def emailAtomChar (c : Char) : Bool :=
  c.isAlphanum || "!#$%&*+/=?^_~-".contains c ||
    c = Char.ofNat 39 || c = Char.ofNat 96 || c = Char.ofNat 123 ||
    c = Char.ofNat 124 || c = Char.ofNat 125

/-- A domain label of `EMAIL_REGEX`: `[a-z0-9](?:[a-z0-9-]*[a-z0-9])?`
case-insensitively — nonempty, alphanumeric first and last characters,
alphanumeric or hyphen inside. -/
def emailLabel (l : List Char) : Bool :=
  match l, l.getLast? with
  | c :: cs, some d =>
    c.isAlphanum && d.isAlphanum && (c :: cs).all (fun x => x.isAlphanum || x = '-')
  | _, _ => false

/-- `EMAIL_REGEX` (src/transformers/email.rs): local part of
dot-separated nonempty atom runs, then `@`, then two or more
dot-separated domain labels, anchored, case-insensitive. -/
def emailRegexMatch (s : String) : Bool :=
  match s.splitOn "@" with
  | [localPart, domain] =>
    ((localPart.splitOn ".").all (fun p => p ≠ "" && p.data.all emailAtomChar)) &&
    (let labels := domain.splitOn "."
     labels.length ≥ 2 && labels.all (fun l => emailLabel l.data))
  | _ => false

/-- `ZIP_REGEX` capture extraction: `\A(\d{5})\D*(?:(\d{4}))?\z`
(src/transformers/zipcode.rs).  Returns the five-digit base code and,
when present, the four-digit plus-four code. -/
def zipCaptures (s : String) : Option (String × Option String) :=
  let cs := s.data
  let five := cs.take 5
  if five.length = 5 && five.all Char.isDigit then
    let rest := cs.drop 5
    let tail := rest.dropWhile (fun c => !c.isDigit)
    if tail.isEmpty then some (⟨five⟩, none)
    else if tail.length = 4 && tail.all Char.isDigit then some (⟨five⟩, some ⟨tail⟩)
    else none
  else none

/-- The part of `NANP_REGEX` after the optional country code:
`\D*\(?(\d{3})\)?\D*(\d{3})\D*(\d{4})\z` (src/transformers/phone_number.rs;
the optional parentheses are subsumed by the adjacent `\D*`).  Greedy
`\D*` over a digit-run boundary leaves no backtracking choices, so the
match is computed by alternating maximal non-digit runs with fixed-width
digit groups. -/
def nanpRest (cs : List Char) : Option (String × String × String) :=
  let r1 := cs.dropWhile (fun c => !c.isDigit)
  let area := r1.take 3
  if area.length = 3 && area.all Char.isDigit then
    let r2 := (r1.drop 3).dropWhile (fun c => !c.isDigit)
    let exchange := r2.take 3
    if exchange.length = 3 && exchange.all Char.isDigit then
      let r3 := (r2.drop 3).dropWhile (fun c => !c.isDigit)
      if r3.length = 4 && r3.all Char.isDigit then
        some (⟨area⟩, ⟨exchange⟩, ⟨r3⟩)
      else none
    else none
  else none

/-- `NANP_REGEX` capture extraction, including the optional
`(?:\+?1)?` country-code prefix, whose alternatives are tried in the
regex engine's order: `"+1"`, then `"1"`, then nothing. -/
def nanpCaptures (s : String) : Option (String × String × String) :=
  match s.data with
  | '+' :: '1' :: rest =>
    (match nanpRest rest with
     | some r => some r
     | none => nanpRest ('+' :: '1' :: rest))
  | '1' :: rest =>
    (match nanpRest rest with
     | some r => some r
     | none => nanpRest ('1' :: rest))
  | cs => nanpRest cs

/-- `TrimTransformer` (src/transformers/trim.rs). -/
structure TrimTransformer where

/-- `TrimTransformer::transform`: trim and always succeed. -/
def TrimTransformer.transform (_ : TrimTransformer) (field_value : String)
    (_ : String) (_ : Nat) : TransformResult :=
  .present (trimFn field_value)

/-- `NoneTransformer` (src/transformers/none.rs). -/
structure NoneTransformer where
  regex : RegexM

/-- `NoneTransformer::with_blank_matcher`. -/
def NoneTransformer.with_blank_matcher : NoneTransformer :=
  { regex := blankRegex }

/-- `NoneTransformer::transform`: excluded on a match, otherwise pass
the value through. -/
def NoneTransformer.transform (t : NoneTransformer) (field_value : String)
    (_ : String) (_ : Nat) : TransformResult :=
  if t.regex.isMatch field_value then .excluded else .present field_value

/-- `RegexTransformer` (src/transformers/regex.rs). -/
structure RegexTransformer where
  regex : RegexM
  template : String

/-- `RegexTransformer::transform`: expand the template on a capture,
otherwise fail. -/
def RegexTransformer.transform (t : RegexTransformer) (field_value field_name : String)
    (record_n : Nat) : TransformResult :=
  match t.regex.capturesExpand t.template field_value with
  | some expansion => .present expansion
  | none =>
    .mkError field_value field_name record_n ("did not match pattern " ++ t.regex.display)

/-- `RegexMatchTransformer` (src/transformers/regex.rs). -/
structure RegexMatchTransformer where
  regex : RegexM
  negate : Bool

/-- `RegexMatchTransformer::transform`: succeed when the match state
equals the negation flag's expectation. -/
def RegexMatchTransformer.transform (t : RegexMatchTransformer)
    (field_value field_name : String) (record_n : Nat) : TransformResult :=
  let is_match := if t.negate then !(t.regex.isMatch field_value) else t.regex.isMatch field_value
  if is_match then .present field_value
  else
    let reason :=
      if t.negate then "matched exclusionary pattern " ++ t.regex.display
      else "did not match pattern " ++ t.regex.display
    .mkError field_value field_name record_n reason

/-- `CapitalizeTransformer` (src/transformers/capitalize.rs). -/
structure CapitalizeTransformer where

/-- `CapitalizeTransformer::transform`: always succeeds. -/
def CapitalizeTransformer.transform (_ : CapitalizeTransformer) (field_value : String)
    (_ : String) (_ : Nat) : TransformResult :=
  .present (capitalizeFn field_value)

/-- `EmailTransformer` (src/transformers/email.rs). -/
structure EmailTransformer where

/-- `EmailTransformer::transform`: lowercase on a match, fail otherwise. -/
def EmailTransformer.transform (_ : EmailTransformer) (field_value field_name : String)
    (record_n : Nat) : TransformResult :=
  if emailRegexMatch field_value then
    .present ⟨field_value.data.map charDown⟩
  else
    .mkError field_value field_name record_n "invalid email address"

/-- `NumberTransformer` (src/transformers/number.rs). -/
structure NumberTransformer where

/-- `NumberTransformer::transform`: pass through on an `INTEGER_REGEX`
match, fail otherwise. -/
def NumberTransformer.transform (_ : NumberTransformer) (field_value field_name : String)
    (record_n : Nat) : TransformResult :=
  if integerRegexMatch field_value then .present field_value
  else .mkError field_value field_name record_n "not a valid number"

/-- `DateTransformer` (src/transformers/date.rs).  The `time` crate's
`strptime`/`strftime` are external collaborators; they are modelled as
function-valued parameters, with parsed `Tm` values represented by
opaque string tokens. -/
structure DateTransformer where
  input_formats : List String
  output_format : String
  strptimeFn : String → String → Option String
  strftimeFn : String → String → String

/-- `DateTransformer::transform`: try the input formats in order and
reformat the first successful parse; fail when none parses. -/
def DateTransformer.transform (t : DateTransformer) (field_value field_name : String)
    (record_n : Nat) : TransformResult :=
  match t.input_formats.findSome? (fun fmt => t.strptimeFn field_value fmt) with
  | some tm => .present (t.strftimeFn tm t.output_format)
  | none => .mkError field_value field_name record_n "unable to parse as date"

/-- `ChoiceTransformer` (src/transformers/choice.rs). -/
structure ChoiceTransformer where
  choices : List String

/-- `ChoiceTransformer::transform`: pass through a member of the
choice set, fail otherwise listing the choices. -/
def ChoiceTransformer.transform (t : ChoiceTransformer) (field_value field_name : String)
    (record_n : Nat) : TransformResult :=
  if t.choices.contains field_value then .present field_value
  else
    .mkError field_value field_name record_n ("not in valid choices " ++ toString t.choices)

/-- `ZipcodeTransformer` (src/transformers/zipcode.rs). -/
structure ZipcodeTransformer where

/-- `ZipcodeTransformer::transform`: normalize to `DDDDD` or
`DDDDD-DDDD`, fail on a mismatch. -/
def ZipcodeTransformer.transform (_ : ZipcodeTransformer) (field_value field_name : String)
    (record_n : Nat) : TransformResult :=
  match zipCaptures field_value with
  | some (base, some plusFour) => .present (base ++ "-" ++ plusFour)
  | some (base, none) => .present base
  | none => .mkError field_value field_name record_n "not a valid zipcode"

/-- `PhoneNumberTransformer` (src/transformers/phone_number.rs). -/
structure PhoneNumberTransformer where

/-- `PhoneNumberTransformer::transform`: normalize to
`+1 AAA EEE SSSS`, fail on a mismatch. -/
def PhoneNumberTransformer.transform (_ : PhoneNumberTransformer)
    (field_value field_name : String) (record_n : Nat) : TransformResult :=
  match nanpCaptures field_value with
  | some (area, exchange, subscriber) =>
    .present ("+1 " ++ area ++ " " ++ exchange ++ " " ++ subscriber)
  | none => .mkError field_value field_name record_n "not a valid NANP format phone number"

/-- The closed `Transformers` enum (src/transformers/mod.rs). -/
inductive Transformers where
  | Trim (t : TrimTransformer)
  | None (t : NoneTransformer)
  | Regex (t : RegexTransformer)
  | RegexMatch (t : RegexMatchTransformer)
  | Capitalize (t : CapitalizeTransformer)
  | Email (t : EmailTransformer)
  | Number (t : NumberTransformer)
  | Date (t : DateTransformer)
  | Choice (t : ChoiceTransformer)
  | Zipcode (t : ZipcodeTransformer)
  | PhoneNumber (t : PhoneNumberTransformer)

/-- `impl Transformer for Transformers` — exhaustive dispatch. -/
def Transformers.transform (t : Transformers) (field_value field_name : String)
    (record_n : Nat) : TransformResult :=
  match t with
  | .Trim t => t.transform field_value field_name record_n
  | .None t => t.transform field_value field_name record_n
  | .Regex t => t.transform field_value field_name record_n
  | .RegexMatch t => t.transform field_value field_name record_n
  | .Capitalize t => t.transform field_value field_name record_n
  | .Email t => t.transform field_value field_name record_n
  | .Number t => t.transform field_value field_name record_n
  | .Date t => t.transform field_value field_name record_n
  | .Choice t => t.transform field_value field_name record_n
  | .Zipcode t => t.transform field_value field_name record_n
  | .PhoneNumber t => t.transform field_value field_name record_n

/-- `Applicability` (src/ruleset.rs).  The `HashSet<String>` of field
names is modelled as a list with membership semantics (the constructors
deduplicate, collapsing duplicates as a hash set does). -/
inductive Applicability where
  | Global
  | Fields (field_names : List String)

/-- `Rule` (src/ruleset.rs). -/
structure Rule where
  applicability : Applicability
  transformer : Transformers
  priority : Int

/-- `Rule::for_fields_with_priority`. -/
def Rule.for_fields_with_priority (field_names : List String) (transformer : Transformers)
    (priority : Int) : Rule :=
  { applicability := .Fields field_names.dedup, transformer := transformer,
    priority := priority }

/-- `Rule::for_fields` — default priority 0. -/
def Rule.for_fields (field_names : List String) (transformer : Transformers) : Rule :=
  Rule.for_fields_with_priority field_names transformer 0

/-- `Rule::global_with_priority`. -/
def Rule.global_with_priority (transformer : Transformers) (priority : Int) : Rule :=
  { applicability := .Global, transformer := transformer, priority := priority }

/-- `Rule::global` — default priority 0. -/
def Rule.global (transformer : Transformers) : Rule :=
  Rule.global_with_priority transformer 0

/-- `Rule::apply` (src/ruleset.rs lines 155–165): delegate to the
transformer when the rule is applicable to the field, otherwise pass
the value through unchanged. -/
def Rule.apply (r : Rule) (field_value field_name : String) (record_n : Nat) :
    TransformResult :=
  match r.applicability with
  | .Global => r.transformer.transform field_value field_name record_n
  | .Fields field_names =>
    if field_names.contains field_name then
      r.transformer.transform field_value field_name record_n
    else
      .ok (some field_value)

/-- Whether `Rule::apply` reaches the transformer for this field name
(as opposed to the pass-through arm). -/
def Rule.invokes (r : Rule) (field_name : String) : Bool :=
  match r.applicability with
  | .Global => true
  | .Fields field_names => field_names.contains field_name

/-- `impl Ord for Rule` (src/ruleset.rs lines 168–173):
`other.priority.cmp(&self.priority)` — the comparison is *reversed*,
so the rule with the smaller priority number is the greater element. -/
def ruleCmp (r other : Rule) : Ordering :=
  compare other.priority r.priority

/-- Placeholder returned by out-of-range indexed access in the heap
model; `siftUp` only ever reads valid indices, so it is never produced. -/
def defaultRule : Rule :=
  Rule.global (.Trim {})

/-- The sift-up loop of `BinaryHeap::push` from the Rust standard
library: starting from the appended position, repeatedly swap the new
element with its parent while it compares strictly greater.  The
position strictly decreases, so `fuel := pos` steps always suffice;
the fuel only makes the recursion structural. -/
def siftUpFuel : Nat → List Rule → Nat → List Rule
  | 0, data, _ => data
  | fuel + 1, data, pos =>
    if pos = 0 then data
    else
      let parent := (pos - 1) / 2
      let elem := data.getD pos defaultRule
      let par := data.getD parent defaultRule
      if ruleCmp elem par = Ordering.gt then
        siftUpFuel fuel ((data.set pos par).set parent elem) parent
      else data

/-- `BinaryHeap::push`: append, then sift up from the last position.
The list models the heap's underlying `Vec`, which is also the order
`BinaryHeap::iter` visits. -/
def binaryHeapPush (data : List Rule) (item : Rule) : List Rule :=
  siftUpFuel data.length (data ++ [item]) data.length

/-- `Ruleset` (src/ruleset.rs): `rules` models the `BinaryHeap<Rule>`
by its underlying vector. -/
structure Ruleset where
  rules : List Rule

/-- `Ruleset::without_default_rules`. -/
def Ruleset.without_default_rules : Ruleset :=
  { rules := [] }

/-- `Ruleset::add_rule`. -/
def Ruleset.add_rule (rs : Ruleset) (rule : Rule) : Ruleset :=
  { rules := binaryHeapPush rs.rules rule }

/-- `Ruleset::new` (src/ruleset.rs lines 221–227): the default blank
rule then the default trim rule, both global at priority −10. -/
def Ruleset.new : Ruleset :=
  (Ruleset.without_default_rules.add_rule
      (Rule.global_with_priority (.None NoneTransformer.with_blank_matcher) (-10))).add_rule
    (Rule.global_with_priority (.Trim {}) (-10))

/-- The per-field rule chain of `Ruleset::apply_rules`
(src/ruleset.rs lines 276–295): fold the rules over the current
optional value; an `Err` outcome records the error and turns the value
into `None`, and a `None` value breaks out of the loop. -/
def runChain : List Rule → String → Nat → Option String →
    Option String × List TransformError
  | [], _, _, cur => (cur, [])
  | _ :: _, _, _, none => (none, [])
  | r :: rest, field_name, record_n, some fv =>
    match r.apply fv field_name record_n with
    | .ok tfv => runChain rest field_name record_n tfv
    | .error e =>
      let after := runChain rest field_name record_n none
      (after.1, e :: after.2)

/-- Instrumentation of `runChain`: the sequence of transformer
invocations it performs, as pairs of the rule invoked and the field
value it received.  Rules whose applicability check fails contribute
no invocation. -/
def runChainTrace : List Rule → String → Nat → Option String → List (Rule × String)
  | [], _, _, _ => []
  | _ :: _, _, _, none => []
  | r :: rest, field_name, record_n, some fv =>
    (if r.invokes field_name then [(r, fv)] else []) ++
      runChainTrace rest field_name record_n
        (match r.apply fv field_name record_n with
         | .ok tfv => tfv
         | .error _ => none)

/-- The field loop of `Ruleset::apply_rules` (src/ruleset.rs lines
273–307), with `fieldN` the enumeration index: in-range fields run the
rule chain and append their value (the source's
`transformed_fields.insert(field_n, v)` always inserts at the current
length, because every previous index was in range, so it appends);
excess fields append a wide-row error and no value. -/
def applyFields (rules : List Rule) (headers : List String) (record_n : Nat) :
    Nat → List String → List (Option String) × List TransformError
  | _, [] => ([], [])
  | fieldN, field_value :: rest =>
    if h : fieldN < headers.length then
      let field_name := headers.get ⟨fieldN, h⟩
      let chained := runChain rules field_name record_n (some field_value)
      let next := applyFields rules headers record_n (fieldN + 1) rest
      (chained.1 :: next.1, chained.2 ++ next.2)
    else
      let e : TransformError :=
        { record_n := record_n, field_name := toString fieldN,
          field_value := field_value,
          reason := "found " ++ toString headers.length ++
            " header fields but record had extra field at position " ++ toString fieldN }
      let next := applyFields rules headers record_n (fieldN + 1) rest
      (next.1, e :: next.2)

/-- The wide-row errors produced by the `else` arm of the field loop
for a run of excess fields starting at column index `i`, with `E` the
header count (src/ruleset.rs lines 297–306). -/
def wideErrors (E record_n : Nat) : Nat → List String → List TransformError
  | _, [] => []
  | i, field_value :: rest =>
    { record_n := record_n, field_name := toString i, field_value := field_value,
      reason := "found " ++ toString E ++
        " header fields but record had extra field at position " ++ toString i } ::
      wideErrors E record_n (i + 1) rest

/-- `TransformedRecord` (src/ruleset.rs). -/
structure TransformedRecord where
  field_values : List (Option String)
  errors : List TransformError
deriving DecidableEq, Repr

/-- `Ruleset::apply_rules` (src/ruleset.rs lines 268–313). -/
def Ruleset.apply_rules (rs : Ruleset) (headers fields : List String) (record_n : Nat) :
    TransformedRecord :=
  let result := applyFields rs.rules headers record_n 0 fields
  { field_values := result.1, errors := result.2 }

/-- `ValidationError` (src/ruleset.rs). -/
structure ValidationError where
  reason : String
deriving DecidableEq, Repr

/-- The reason string of a `ValidationError`:
`format!("The following fields were not found in headers: '{:?}'", diff)`,
with the diff set rendered in the model's list order. -/
def validationReason (diff : List String) : String :=
  "The following fields were not found in headers: \x27" ++ toString diff ++ "\x27"

/-- The unknown-field set of one rule against the headers: the set
difference `field_names \ headers` computed in `Ruleset::validate_rules`. -/
def ruleUnknownFields (headers : List String) (r : Rule) : List String :=
  match r.applicability with
  | .Global => []
  | .Fields field_names => field_names.filter (fun f => !headers.contains f)

/-- The `ValidationError` contributed by one rule in
`Ruleset::validate_rules`, if any. -/
def ruleValidationError (headers : List String) (r : Rule) : Option ValidationError :=
  let diff := ruleUnknownFields headers r
  if diff.length > 0 then some { reason := validationReason diff } else none

/-- `Ruleset::validate_rules` (src/ruleset.rs lines 242–265): collect
one error for every Fields-rule whose name set is not contained in the
headers; `Ok` exactly when no rule contributed an error. -/
def Ruleset.validate_rules (rs : Ruleset) (headers : List String) :
    Except (List ValidationError) Unit :=
  let errors := rs.rules.filterMap (ruleValidationError headers)
  if errors.isEmpty then .ok () else .error errors

/-- The field-name set a rule's applicability references (empty for
Global rules). -/
def Rule.fieldNames (r : Rule) : List String :=
  match r.applicability with
  | .Global => []
  | .Fields field_names => field_names

/-- The default blank rule seeded by `Ruleset::new`. -/
def noneDefaultRule : Rule :=
  Rule.global_with_priority (.None NoneTransformer.with_blank_matcher) (-10)

/-- The default trim rule seeded by `Ruleset::new`. -/
def trimDefaultRule : Rule :=
  Rule.global_with_priority (.Trim {}) (-10)

/-- A global rule with priority 10 whose transformer fails on any value
other than `"A"`. -/
def c1ChoiceRule : Rule :=
  Rule.global_with_priority (.Choice { choices := ["A"] }) 10

/-- A global trim rule with priority −10. -/
def c1TrimRule : Rule :=
  Rule.global_with_priority (.Trim {}) (-10)

/-- A ruleset holding exactly the priority-10 choice rule and the
priority-−10 trim rule. -/
def c1Ruleset : Ruleset :=
  (Ruleset.without_default_rules.add_rule c1ChoiceRule).add_rule c1TrimRule

/-- A ruleset with a global trim rule and a global number rule, both at
the default priority 0, so that trim is iterated first. -/
def c3Ruleset : Ruleset :=
  (Ruleset.without_default_rules.add_rule (Rule.global (.Trim {}))).add_rule
    (Rule.global (.Number {}))

/-- A ruleset with two Fields-rules referencing the unknown field names
`"X"` and `"Y"`. -/
def c6Ruleset : Ruleset :=
  (Ruleset.without_default_rules.add_rule (Rule.for_fields ["X"] (.Trim {}))).add_rule
    (Rule.for_fields ["Y"] (.Number {}))

/-! ### Helper lemmas about the per-field rule chain -/

theorem runChain_none (rules : List Rule) (name : String) (n : Nat) :
    runChain rules name n none = (none, []) := by
  cases rules <;> rfl

theorem runChainTrace_none (rules : List Rule) (name : String) (n : Nat) :
    runChainTrace rules name n none = [] := by
  cases rules <;> rfl

theorem runChain_append (l₁ l₂ : List Rule) (name : String) (n : Nat)
    (cur : Option String) :
    runChain (l₁ ++ l₂) name n cur =
      ((runChain l₂ name n (runChain l₁ name n cur).1).1,
       (runChain l₁ name n cur).2 ++ (runChain l₂ name n (runChain l₁ name n cur).1).2) := by
  induction l₁ generalizing cur with
  | nil => cases cur <;> simp [runChain, runChain_none]
  | cons r rest ih =>
    cases cur with
    | none => simp [runChain_none, runChainTrace_none]
    | some fv =>
      simp only [List.cons_append, runChain]
      cases r.apply fv name n with
      | ok tfv => exact ih tfv
      | error e => simp [ih none, runChain_none]

theorem runChainTrace_append (l₁ l₂ : List Rule) (name : String) (n : Nat)
    (cur : Option String) :
    runChainTrace (l₁ ++ l₂) name n cur =
      runChainTrace l₁ name n cur ++ runChainTrace l₂ name n (runChain l₁ name n cur).1 := by
  induction l₁ generalizing cur with
  | nil => cases cur <;> simp [runChainTrace, runChain, runChain_none, runChainTrace_none]
  | cons r rest ih =>
    cases cur with
    | none => simp [runChain_none, runChainTrace_none]
    | some fv =>
      simp only [List.cons_append, runChainTrace, runChain]
      cases r.apply fv name n with
      | ok tfv => simp only [List.append_eq, ih tfv, List.append_assoc]
      | error e => simp only [List.append_eq, ih none, List.append_assoc]

/-- Every transformer builds its errors from the field value it was
invoked with (each `Err` arm goes through
`TransformResultHelper::error(field_value, ...)`). -/
theorem Transformers.transform_error_field_value (t : Transformers)
    (v name : String) (n : Nat) (e : TransformError)
    (h : t.transform v name n = .error e) : e.field_value = v := by
  cases t <;>
    simp only [Transformers.transform, TrimTransformer.transform,
      NoneTransformer.transform, RegexTransformer.transform,
      RegexMatchTransformer.transform, CapitalizeTransformer.transform,
      EmailTransformer.transform, NumberTransformer.transform,
      DateTransformer.transform, ChoiceTransformer.transform,
      ZipcodeTransformer.transform, PhoneNumberTransformer.transform,
      TransformResult.present, TransformResult.excluded, TransformResult.mkError] at h <;>
    (repeat' split at h) <;>
    simp_all <;>
    (try cases h) <;>
    simp_all

/-- An error outcome of `Rule::apply` comes from the transformer (the
pass-through arm never fails) and carries the invocation's value. -/
theorem Rule.apply_error (r : Rule) (v name : String) (n : Nat) (e : TransformError)
    (h : r.apply v name n = .error e) :
    r.invokes name = true ∧ r.transformer.transform v name n = .error e ∧
      e.field_value = v := by
  obtain ⟨ap, tr, pr⟩ := r
  cases ap with
  | Global =>
    simp only [Rule.apply, Rule.invokes] at h ⊢
    exact ⟨trivial, h, Transformers.transform_error_field_value _ _ _ _ _ h⟩
  | Fields fns =>
    simp only [Rule.apply, Rule.invokes] at h ⊢
    by_cases hc : fns.contains name = true
    · rw [if_pos hc] at h
      exact ⟨hc, h, Transformers.transform_error_field_value _ _ _ _ _ h⟩
    · rw [if_neg hc] at h
      cases h

/-- Every error recorded by the rule chain arises from a traced
transformer invocation whose input value it carries. -/
theorem runChain_error_mem (rules : List Rule) (name : String) (n : Nat) :
    ∀ (v : String) (e : TransformError), e ∈ (runChain rules name n (some v)).2 →
      ∃ p ∈ runChainTrace rules name n (some v),
        p.1.apply p.2 name n = .error e ∧ e.field_value = p.2 := by
  induction rules with
  | nil => intro v e he; simp [runChain] at he
  | cons r rest ih =>
    intro v e he
    cases happ : r.apply v name n with
    | ok tfv =>
      simp only [runChain, happ] at he
      cases tfv with
      | none => rw [runChain_none] at he; simp at he
      | some v2 =>
        obtain ⟨p, hp, h1, h2⟩ := ih v2 e he
        refine ⟨p, ?_, h1, h2⟩
        simp only [runChainTrace, happ]
        exact List.mem_append_right _ hp
    | error e0 =>
      simp only [runChain, happ, runChain_none] at he
      have he0 : e = e0 := by simpa using he
      subst he0
      obtain ⟨hin, _, hfv⟩ := Rule.apply_error r v name n e happ
      refine ⟨(r, v), ?_, happ, hfv⟩
      simp only [runChainTrace, happ, hin]
      simp

/-! ### Helper lemmas about the field loop -/

theorem wideErrors_length (E n : Nat) :
    ∀ (fs : List String) (i : Nat), (wideErrors E n i fs).length = fs.length := by
  intro fs
  induction fs with
  | nil => intro i; rfl
  | cons v rest ih => intro i; simp [wideErrors, ih]

/-- Past the header count, the field loop only accumulates wide-row
errors. -/
theorem applyFields_out_of_range (rules : List Rule) (headers : List String) (n : Nat) :
    ∀ (fs : List String) (i : Nat), headers.length ≤ i →
      applyFields rules headers n i fs = ([], wideErrors headers.length n i fs) := by
  intro fs
  induction fs with
  | nil => intro i _; rfl
  | cons v rest ih =>
    intro i h
    simp only [applyFields, wideErrors]
    rw [dif_neg (by omega)]
    rw [ih (i + 1) (by omega)]

/-- The field loop splits into the in-range fields followed by the
wide-row errors of the excess fields. -/
theorem applyFields_split (rules : List Rule) (headers : List String) (n : Nat) :
    ∀ (fs : List String) (i : Nat), i ≤ headers.length →
      applyFields rules headers n i fs =
        ((applyFields rules headers n i (fs.take (headers.length - i))).1,
         (applyFields rules headers n i (fs.take (headers.length - i))).2 ++
           wideErrors headers.length n headers.length (fs.drop (headers.length - i))) := by
  intro fs
  induction fs with
  | nil => intro i _; simp [applyFields, wideErrors]
  | cons v rest ih =>
    intro i h
    by_cases hi : i < headers.length
    · have hE : headers.length - i = (headers.length - (i + 1)) + 1 := by omega
      rw [hE]
      simp only [List.take_succ_cons, List.drop_succ_cons]
      simp only [applyFields]
      rw [ih (i + 1) (by omega)]
      simp [hi, List.append_assoc]
    · have hEq : i = headers.length := by omega
      subst hEq
      simp only [Nat.sub_self, List.take_zero, List.drop_zero]
      simp only [applyFields]
      rw [dif_neg (by omega)]
      rw [applyFields_out_of_range rules headers n rest (headers.length + 1) (by omega)]
      simp [wideErrors]

/-- The number of produced field values is the number of in-range
fields. -/
theorem applyFields_values_length (rules : List Rule) (headers : List String) (n : Nat) :
    ∀ (fs : List String) (i : Nat),
      (applyFields rules headers n i fs).1.length = min fs.length (headers.length - i) := by
  intro fs
  induction fs with
  | nil => intro i; simp [applyFields]
  | cons v rest ih =>
    intro i
    by_cases hi : i < headers.length
    · simp only [applyFields]
      rw [dif_pos hi]
      simp only [List.length_cons, ih (i + 1)]
      omega
    · simp only [applyFields]
      rw [dif_neg hi]
      simp only [List.length_cons, ih (i + 1)]
      omega

/-- Header columns beyond the present fields play no role in the field
loop: truncating the headers to the fields actually present changes
nothing. -/
theorem applyFields_take_headers (rules : List Rule) (headers : List String) (n : Nat) :
    ∀ (fs : List String) (i : Nat), i + fs.length ≤ headers.length →
      applyFields rules headers n i fs =
        applyFields rules (headers.take (i + fs.length)) n i fs := by
  intro fs
  induction fs with
  | nil => intro i _; rfl
  | cons v fs ih =>
    intro i h
    have hi : i < headers.length := by simp at h; omega
    have hi2 : i < (headers.take (i + (v :: fs).length)).length := by
      simp [List.length_take]
      omega
    simp only [applyFields]
    rw [dif_pos hi, dif_pos hi2]
    have hname : (headers.take (i + (v :: fs).length)).get ⟨i, hi2⟩ =
        headers.get ⟨i, hi⟩ := by
      simp [List.get_eq_getElem, List.getElem_take]
    rw [hname]
    have harith : i + (v :: fs).length = (i + 1) + fs.length := by simp; omega
    rw [harith]
    rw [ih (i + 1) (by simp at h ⊢; omega)]

/-- The value produced for an in-range field is the outcome of its rule
chain. -/
theorem applyFields_get (rules : List Rule) (headers : List String) (n : Nat) :
    ∀ (fs : List String) (j i : Nat), i < fs.length → j + i < headers.length →
      (applyFields rules headers n j fs).1.get? i =
        some (runChain rules (headers.getD (j + i) "") n (some (fs.getD i ""))).1 := by
  intro fs
  induction fs with
  | nil => intro j i h1 _; simp at h1
  | cons v rest ih =>
    intro j i h1 h2
    have hj : j < headers.length := by omega
    simp only [applyFields]
    rw [dif_pos hj]
    cases i with
    | zero =>
      simp only [List.get?_cons_zero, List.getD_cons_zero]
      have hgd : headers.getD (j + 0) "" = headers.get ⟨j, hj⟩ := by
        simp [List.getD_eq_getElem?_getD, List.getElem?_eq_getElem hj]
      rw [hgd]
    | succ i2 =>
      simp only [List.get?_cons_succ, List.getD_cons_succ]
      have hrec := ih (j + 1) i2 (by simpa using h1) (by omega)
      have harith : j + 1 + i2 = j + (i2 + 1) := by omega
      rw [harith] at hrec
      exact hrec

/-! ### Claim C1 — rule execution order -/

/-- C1: rules are *not* executed in descending priority order.
`apply_rules` iterates `BinaryHeap::iter`, which visits the heap's
underlying vector, and the reversed `Ord` of `Rule` places the
*lowest*-priority rule at the root: with priorities 10 and −10 the
−10 trim rule is first in iteration order.  On the row `[" A"]` the
trim rule therefore runs first, turning `" A"` into `"A"`, and the
priority-10 choice rule then succeeds — no error and `Some "A"`.  Had
the priority-10 rule run first, as the claim states, it would have
failed on `" A"` (not a member of `["A"]`), recording an error and
excluding the field. -/
theorem heap_iteration_defies_priority_order :
    c1Ruleset.rules = [c1TrimRule, c1ChoiceRule] ∧
    c1Ruleset.apply_rules ["F"] [" A"] 2 =
      { field_values := [some "A"], errors := [] } :=
  ⟨rfl, by decide⟩

/-! ### Claim C2 — short-circuit after exclusion -/

/-- C2: once the per-field chain's current value has become `None`
(by an explicit Excluded outcome or by a Failed one), no later rule's
transformer is invoked on that field: the invocation trace of the
whole chain is exactly the trace of the prefix that produced `None`. -/
theorem excluded_value_stops_invocations (rules₁ rules₂ : List Rule) (name : String)
    (n : Nat) (v : String) (h : (runChain rules₁ name n (some v)).1 = none) :
    runChainTrace (rules₁ ++ rules₂) name n (some v) =
      runChainTrace rules₁ name n (some v) := by
  rw [runChainTrace_append, h, runChainTrace_none, List.append_nil]

/-- Witness for C2: the default blank rule excludes the empty string,
and a subsequent trim rule is never invoked. -/
theorem excluded_value_stops_invocations_witness :
    (runChain [Rule.global (.None NoneTransformer.with_blank_matcher)] "F" 2 (some "")).1 =
      none ∧
    runChainTrace ([Rule.global (.None NoneTransformer.with_blank_matcher)] ++
        [Rule.global (.Trim {})]) "F" 2 (some "") =
      runChainTrace [Rule.global (.None NoneTransformer.with_blank_matcher)] "F" 2
        (some "") :=
  ⟨by decide, excluded_value_stops_invocations _ _ "F" 2 "" (by decide)⟩

/-! ### Claim C3 — the field value recorded in errors -/

/-- C3 counterexample: on the row `[" 5x"]` the trim rule first turns
the value into `"5x"`, and the failing number rule then records a
`TransformError` whose `field_value` is the intermediate `"5x"`, not
the original `" 5x"` claimed by the spec. -/
theorem transform_error_not_original_value :
    c3Ruleset.apply_rules ["N"] [" 5x"] 2 =
      { field_values := [none],
        errors := [{ record_n := 2, field_name := "N", field_value := "5x",
                     reason := "not a valid number" }] } ∧
    ("5x" : String) ≠ " 5x" :=
  ⟨by decide, by decide⟩

/-- C3 (amended): every TransformError recorded by the per-field rule
chain carries as `field_value` the exact value passed to the failing
transformer invocation — the intermediate value produced by the earlier
rules of the chain — rather than necessarily the original field value. -/
theorem chain_errors_carry_invocation_value (rules : List Rule) (name : String)
    (n : Nat) (v : String) (e : TransformError)
    (he : e ∈ (runChain rules name n (some v)).2) :
    ∃ p ∈ runChainTrace rules name n (some v),
      p.1.apply p.2 name n = .error e ∧ e.field_value = p.2 :=
  runChain_error_mem rules name n v e he

/-- Witness for C3 (amended): a number rule failing on `"x"` records an
error that is traced back to its invocation. -/
theorem chain_errors_carry_invocation_value_witness :
    ({ record_n := 2, field_name := "N", field_value := "x",
       reason := "not a valid number" } : TransformError) ∈
      (runChain [Rule.global (.Number {})] "N" 2 (some "x")).2 ∧
    ∃ p ∈ runChainTrace [Rule.global (.Number {})] "N" 2 (some "x"),
      p.1.apply p.2 "N" 2 =
        .error { record_n := 2, field_name := "N", field_value := "x",
                 reason := "not a valid number" } ∧
      TransformError.field_value
        { record_n := 2, field_name := "N", field_value := "x",
          reason := "not a valid number" } = p.2 :=
  ⟨by decide,
   chain_errors_carry_invocation_value [Rule.global (.Number {})] "N" 2 "x" _ (by decide)⟩

/-! ### Claim C4 — heap-root preservation lemmas -/

theorem siftUpFuel_length (fuel : Nat) :
    ∀ (data : List Rule) (pos : Nat), (siftUpFuel fuel data pos).length = data.length := by
  induction fuel with
  | zero => intro data pos; rfl
  | succ fuel ih =>
    intro data pos
    simp only [siftUpFuel]
    by_cases h0 : pos = 0
    · rw [if_pos h0]
    · rw [if_neg h0]
      split
      · rw [ih]
        simp [List.length_set]
      · rfl

/-- The sift-up loop never disturbs the root element as long as the
sifted element does not compare strictly greater than it. -/
theorem siftUpFuel_getD_zero (fuel : Nat) :
    ∀ (data : List Rule) (pos : Nat), 0 < pos → pos < data.length →
      ruleCmp (data.getD pos defaultRule) (data.getD 0 defaultRule) ≠ Ordering.gt →
      (siftUpFuel fuel data pos).getD 0 defaultRule = data.getD 0 defaultRule := by
  induction fuel with
  | zero => intro data pos _ _ _; rfl
  | succ fuel ih =>
    intro data pos hpos hlen hcmp
    simp only [siftUpFuel]
    rw [if_neg (by omega)]
    by_cases hgt :
        ruleCmp (data.getD pos defaultRule) (data.getD ((pos - 1) / 2) defaultRule) =
          Ordering.gt
    · rw [if_pos hgt]
      by_cases hp0 : (pos - 1) / 2 = 0
      · rw [hp0] at hgt
        exact absurd hgt hcmp
      · have hppos : 0 < (pos - 1) / 2 := Nat.pos_of_ne_zero hp0
        have hple : (pos - 1) / 2 ≤ pos - 1 := Nat.div_le_self _ _
        have hplt : (pos - 1) / 2 < pos := by omega
        have hlen1 : ((data.set pos (data.getD ((pos - 1) / 2) defaultRule)).set
            ((pos - 1) / 2) (data.getD pos defaultRule)).length = data.length := by
          simp [List.length_set]
        have h0 : ((data.set pos (data.getD ((pos - 1) / 2) defaultRule)).set
            ((pos - 1) / 2) (data.getD pos defaultRule)).getD 0 defaultRule =
              data.getD 0 defaultRule := by
          simp only [List.getD_eq_getElem?_getD]
          rw [List.getElem?_set_ne (by omega), List.getElem?_set_ne (by omega)]
        have hpar : ((data.set pos (data.getD ((pos - 1) / 2) defaultRule)).set
            ((pos - 1) / 2) (data.getD pos defaultRule)).getD ((pos - 1) / 2)
              defaultRule = data.getD pos defaultRule := by
          simp only [List.getD_eq_getElem?_getD]
          rw [List.getElem?_set_self (by rw [List.length_set]; omega)]
          rfl
        rw [ih _ ((pos - 1) / 2) hppos (by omega) (by rw [hpar, h0]; exact hcmp)]
        exact h0
    · rw [if_neg hgt]

/-- `BinaryHeap::push` leaves the root untouched when the pushed rule
does not compare strictly greater than it. -/
theorem binaryHeapPush_getD_zero (data : List Rule) (item : Rule) (hne : data ≠ [])
    (hcmp : ruleCmp item (data.getD 0 defaultRule) ≠ Ordering.gt) :
    (binaryHeapPush data item).getD 0 defaultRule = data.getD 0 defaultRule ∧
      binaryHeapPush data item ≠ [] := by
  have hlen : 0 < data.length := List.length_pos.mpr hne
  constructor
  · unfold binaryHeapPush
    have hget0 : (data ++ [item]).getD 0 defaultRule = data.getD 0 defaultRule := by
      simp only [List.getD_eq_getElem?_getD]
      rw [List.getElem?_append_left hlen]
    have hgetp : (data ++ [item]).getD data.length defaultRule = item := by
      simp only [List.getD_eq_getElem?_getD]
      rw [List.getElem?_concat_length]
      rfl
    rw [siftUpFuel_getD_zero data.length (data ++ [item]) data.length hlen
      (by simp) (by rw [hgetp, hget0]; exact hcmp)]
    exact hget0
  · have : (binaryHeapPush data item).length = data.length + 1 := by
      unfold binaryHeapPush
      rw [siftUpFuel_length]
      simp
    intro hcon
    rw [hcon] at this
    simp at this

/-- Folding `add_rule` over rules none of which has priority below −10
keeps the default blank rule at the root of the heap vector. -/
theorem foldl_add_rule_getD_zero (extra : List Rule) :
    ∀ (rs : Ruleset), rs.rules ≠ [] →
      rs.rules.getD 0 defaultRule = noneDefaultRule →
      (∀ r ∈ extra, -10 ≤ r.priority) →
      (extra.foldl Ruleset.add_rule rs).rules ≠ [] ∧
        (extra.foldl Ruleset.add_rule rs).rules.getD 0 defaultRule = noneDefaultRule := by
  induction extra with
  | nil => intro rs h1 h2 _; exact ⟨h1, h2⟩
  | cons r extra ih =>
    intro rs h1 h2 hpr
    have hr : -10 ≤ r.priority := hpr r (List.mem_cons_self _ _)
    have hcmp : ruleCmp r (rs.rules.getD 0 defaultRule) ≠ Ordering.gt := by
      rw [h2]
      simp only [ruleCmp, noneDefaultRule, Rule.global_with_priority]
      intro hg
      rw [compare_gt_iff_gt] at hg
      omega
    have hpush := binaryHeapPush_getD_zero rs.rules r h1 hcmp
    rw [List.foldl_cons]
    exact ih { rules := binaryHeapPush rs.rules r } hpush.2 (hpush.1.trans h2)
      (fun r2 h => hpr r2 (List.mem_cons_of_mem r h))

/-! ### Claim C4 — the default ruleset blanks out blank fields -/

/-- C4: for every ruleset built by the default constructor — including
any rules added afterwards, as long as none carries a priority below
−10 (in this code's inverted iteration order, only a rule with a
priority strictly below −10 can run before the default blank rule and
so override it) — an in-range field whose value consists only of
whitespace and/or control characters (including the empty string) is
mapped to omitted (`none`) in `field_values`: the default blank rule is
at the heap root, hence first in iteration order; it excludes the
value, and the chain then stops. -/
theorem default_ruleset_excludes_blank (extra : List Rule)
    (headers fields : List String) (n i : Nat)
    (hpr : ∀ r ∈ extra, -10 ≤ r.priority)
    (h1 : i < fields.length) (h2 : i < headers.length)
    (hb : isBlankValue (fields.getD i "") = true) :
    ((extra.foldl Ruleset.add_rule Ruleset.new).apply_rules headers fields
        n).field_values.get? i = some none := by
  have hbase1 : Ruleset.new.rules ≠ [] := by
    rw [show Ruleset.new.rules = [noneDefaultRule, trimDefaultRule] from rfl]
    simp
  have hbase2 : Ruleset.new.rules.getD 0 defaultRule = noneDefaultRule := rfl
  obtain ⟨hne, hhead⟩ := foldl_add_rule_getD_zero extra Ruleset.new hbase1 hbase2 hpr
  have hget := applyFields_get (extra.foldl Ruleset.add_rule Ruleset.new).rules headers
    n fields 0 i h1 (by omega)
  simp only [Nat.zero_add] at hget
  have hchain :
      (runChain (extra.foldl Ruleset.add_rule Ruleset.new).rules (headers.getD i "") n
        (some (fields.getD i ""))).1 = none := by
    cases hrs : (extra.foldl Ruleset.add_rule Ruleset.new).rules with
    | nil => exact absurd hrs hne
    | cons h t =>
      have hh : h = noneDefaultRule := by
        rw [hrs] at hhead
        exact hhead
      rw [hh]
      simp only [runChain, Rule.apply, noneDefaultRule, Rule.global_with_priority,
        Transformers.transform, NoneTransformer.transform,
        NoneTransformer.with_blank_matcher, blankRegex, hb, TransformResult.excluded,
        if_true, runChain_none]
  simp only [Ruleset.apply_rules]
  rw [hget, hchain]

/-- Witness for C4: a tab-and-space value under the default ruleset
extended with a priority-0 capitalize rule. -/
theorem default_ruleset_excludes_blank_witness :
    isBlankValue (["\t \t"].getD 0 "") = true ∧
    (([Rule.for_fields ["A"] (.Capitalize {})].foldl Ruleset.add_rule
        Ruleset.new).apply_rules ["A"] ["\t \t"] 7).field_values.get? 0 = some none :=
  ⟨by decide,
   default_ruleset_excludes_blank [Rule.for_fields ["A"] (.Capitalize {})] ["A"]
     ["\t \t"] 7 0 (by decide) (by decide) (by decide) (by decide)⟩

/-! ### Claim C5 — wide rows -/

/-- C5: `apply_rules` on any row decomposes into the transformation of
the in-range fields followed by exactly one wide-row `TransformError`
per excess field — each with the stringified column index as its
`field_name` and the header/field-count mismatch as its `reason`, as
spelled out in `wideErrors` — and the excess fields contribute nothing
to `field_values`. -/
theorem apply_rules_wide_row_errors (rs : Ruleset) (headers fields : List String)
    (n : Nat) :
    (rs.apply_rules headers fields n).errors =
      (rs.apply_rules headers (fields.take headers.length) n).errors ++
        wideErrors headers.length n headers.length (fields.drop headers.length) ∧
    (rs.apply_rules headers fields n).field_values =
      (rs.apply_rules headers (fields.take headers.length) n).field_values ∧
    (wideErrors headers.length n headers.length (fields.drop headers.length)).length =
      fields.length - headers.length := by
  have hs := applyFields_split rs.rules headers n fields 0 (Nat.zero_le _)
  simp only [Nat.sub_zero] at hs
  refine ⟨?_, ?_, ?_⟩
  · simp only [Ruleset.apply_rules, hs]
  · simp only [Ruleset.apply_rules, hs]
  · rw [wideErrors_length, List.length_drop]

/-! ### Claim C6 — ruleset validation -/

theorem ruleUnknownFields_nil_iff (headers : List String) (r : Rule) :
    ruleUnknownFields headers r = [] ↔ ∀ f ∈ r.fieldNames, f ∈ headers := by
  unfold ruleUnknownFields Rule.fieldNames
  cases r.applicability with
  | Global => simp
  | Fields fns =>
    rw [List.filter_eq_nil_iff]
    constructor
    · intro h f hf
      have := h f hf
      simpa using this
    · intro h f hf
      simpa using h f hf

theorem ruleValidationError_none_iff (headers : List String) (r : Rule) :
    ruleValidationError headers r = none ↔ ruleUnknownFields headers r = [] := by
  unfold ruleValidationError
  by_cases hl : (ruleUnknownFields headers r).length > 0
  · rw [if_pos hl]
    have : ruleUnknownFields headers r ≠ [] := by
      intro h
      rw [h] at hl
      simp at hl
    simp [this]
  · rw [if_neg hl]
    have : ruleUnknownFields headers r = [] := by
      cases h : ruleUnknownFields headers r with
      | nil => rfl
      | cons a l => rw [h] at hl; simp at hl
    simp [this]

theorem filterMap_ruleValidationError_length (headers : List String) :
    ∀ (l : List Rule),
      (l.filterMap (ruleValidationError headers)).length =
        (l.filter (fun r => !(ruleUnknownFields headers r).isEmpty)).length := by
  intro l
  induction l with
  | nil => rfl
  | cons r rest ih =>
    by_cases h : (ruleUnknownFields headers r).isEmpty
    · have hnone : ruleValidationError headers r = none :=
        (ruleValidationError_none_iff headers r).mpr (List.isEmpty_iff.mp h)
      simp [List.filterMap_cons, List.filter_cons, h, hnone, ih]
    · have hne : ruleUnknownFields headers r ≠ [] := by
        intro hcon
        exact h (by simp [hcon])
      have hsome : ruleValidationError headers r =
          some { reason := validationReason (ruleUnknownFields headers r) } := by
        unfold ruleValidationError
        rw [if_pos (by cases hU : ruleUnknownFields headers r with
          | nil => exact absurd hU hne
          | cons a l => simp [hU])]
      simp [List.filterMap_cons, List.filter_cons, h, hsome, ih]

/-- C6: `validate_rules` returns `Ok` exactly when every rule's
referenced field names are contained in the headers; otherwise it
returns, in one call, the full batch of validation errors — one per
offending rule, each naming that rule's unmatched field names through
`ruleValidationError`/`validationReason`. -/
theorem validate_rules_spec (rs : Ruleset) (headers : List String) :
    (rs.validate_rules headers = .ok () ↔
      ∀ r ∈ rs.rules, ∀ f ∈ r.fieldNames, f ∈ headers) ∧
    ((¬ ∀ r ∈ rs.rules, ∀ f ∈ r.fieldNames, f ∈ headers) →
      rs.validate_rules headers =
        .error (rs.rules.filterMap (ruleValidationError headers))) ∧
    (rs.rules.filterMap (ruleValidationError headers)).length =
      (rs.rules.filter (fun r => !(ruleUnknownFields headers r).isEmpty)).length := by
  have hnil : rs.rules.filterMap (ruleValidationError headers) = [] ↔
      ∀ r ∈ rs.rules, ∀ f ∈ r.fieldNames, f ∈ headers := by
    rw [List.filterMap_eq_nil_iff]
    constructor
    · intro h r hr
      exact (ruleUnknownFields_nil_iff headers r).mp
        ((ruleValidationError_none_iff headers r).mp (h r hr))
    · intro h r hr
      exact (ruleValidationError_none_iff headers r).mpr
        ((ruleUnknownFields_nil_iff headers r).mpr (h r hr))
  refine ⟨?_, ?_, filterMap_ruleValidationError_length headers rs.rules⟩
  · simp only [Ruleset.validate_rules]
    by_cases he : (rs.rules.filterMap (ruleValidationError headers)).isEmpty
    · rw [if_pos he]
      exact iff_of_true rfl (hnil.mp (List.isEmpty_iff.mp he))
    · rw [if_neg he]
      constructor
      · intro h
        cases h
      · intro hcond
        exact absurd (List.isEmpty_iff.mpr (hnil.mpr hcond)) he
  · intro hcond
    simp only [Ruleset.validate_rules]
    rw [if_neg (fun he => hcond (hnil.mp (List.isEmpty_iff.mp he)))]

/-- Witness for C6: against headers `["A"]`, both offending rules
produce their validation error in a single call. -/
theorem validate_rules_spec_witness :
    c6Ruleset.validate_rules ["A"] =
      .error (c6Ruleset.rules.filterMap (ruleValidationError ["A"])) ∧
    c6Ruleset.rules.filterMap (ruleValidationError ["A"]) =
      [{ reason := validationReason ["X"] }, { reason := validationReason ["Y"] }] :=
  ⟨(validate_rules_spec c6Ruleset ["A"]).2.1 (by decide), by decide⟩

/-! ### Claim C7 — rule applicability -/

/-- C7: a Fields-rule applied to a field outside its name set returns
the original value unchanged as a successful outcome and never errors;
for Global applicability, or a field inside the set, `apply` delegates
to the transformer. -/
theorem rule_apply_applicability (field_names : List String) (t : Transformers)
    (p : Int) (v name : String) (n : Nat) :
    (field_names.contains name = false →
      (Rule.mk (.Fields field_names) t p).apply v name n = .ok (some v)) ∧
    ((Rule.mk .Global t p).apply v name n = t.transform v name n) ∧
    (field_names.contains name = true →
      (Rule.mk (.Fields field_names) t p).apply v name n = t.transform v name n) := by
  refine ⟨fun h => ?_, rfl, fun h => ?_⟩
  · simp only [Rule.apply, h, Bool.false_eq_true, if_false]
  · simp only [Rule.apply, h, if_true]

/-- Witness for C7 at a concrete rule and field names. -/
theorem rule_apply_applicability_witness :
    (Rule.mk (.Fields ["First Name"]) (.Number {}) 0).apply "x" "Id" 3 =
      .ok (some "x") ∧
    (Rule.mk (.Fields ["First Name"]) (.Number {}) 0).apply "x" "First Name" 3 =
      (Transformers.Number {}).transform "x" "First Name" 3 :=
  ⟨(rule_apply_applicability ["First Name"] (.Number {}) 0 "x" "Id" 3).1 (by decide),
   (rule_apply_applicability ["First Name"] (.Number {}) 0 "x" "First Name" 3).2.2
     (by decide)⟩

/-! ### Claim C9 — the integer transformer -/

/-- C9 (code bug evidence): because the source regex reads `(:?` where
`(?:` was clearly intended, `INTEGER_REGEX` also accepts the string
`":0"`, which the number transformer passes through as a success; the
intended inputs behave as described — `"0"` and nonzero-leading digit
strings succeed unchanged, and other strings such as `"007"` fail. -/
theorem number_transformer_accepts_colon_zero :
    ({} : NumberTransformer).transform ":0" "N" 2 = .ok (some ":0") ∧
    ({} : NumberTransformer).transform "0" "N" 2 = .ok (some "0") ∧
    ({} : NumberTransformer).transform "42" "N" 2 = .ok (some "42") ∧
    ({} : NumberTransformer).transform "007" "N" 2 =
      .error { record_n := 2, field_name := "N", field_value := "007",
               reason := "not a valid number" } := by
  refine ⟨?_, ?_, ?_, ?_⟩ <;> decide

/-! ### Claim C10 — length of the produced field values -/

/-- C10: `apply_rules` produces exactly one `field_values` entry per
in-range field: its length is the minimum of the field count and the
header count.  Moreover, for a row with fewer fields than headers the
missing trailing columns produce neither an entry nor an error — the
whole record is unchanged when the headers are truncated to the
present fields. -/
theorem apply_rules_values_length (rs : Ruleset) (headers fields : List String)
    (n : Nat) :
    (rs.apply_rules headers fields n).field_values.length =
      min fields.length headers.length ∧
    (fields.length ≤ headers.length →
      rs.apply_rules headers fields n =
        rs.apply_rules (headers.take fields.length) fields n) := by
  constructor
  · have h := applyFields_values_length rs.rules headers n fields 0
    simpa [Ruleset.apply_rules] using h
  · intro hle
    have h := applyFields_take_headers rs.rules headers n fields 0 (by omega)
    simp only [Nat.zero_add] at h
    simp only [Ruleset.apply_rules, h]

/-- Witness for C10's truncation conjunct at a concrete short row. -/
theorem apply_rules_values_length_witness :
    Ruleset.new.apply_rules ["A", "B", "C"] ["x"] 2 =
      Ruleset.new.apply_rules (["A", "B", "C"].take 1) ["x"] 2 :=
  (apply_rules_values_length Ruleset.new ["A", "B", "C"] ["x"] 2).2 (by decide)

/-! ### Claim C8 — character-level lemmas -/

theorem toNat_ofNat_of_lt {n : Nat} (h : n < 55296) : (Char.ofNat n).toNat = n := by
  have hv : n.isValidChar := Or.inl h
  rw [Char.ofNat, dif_pos hv]
  rfl

theorem char_eq_of_toNat_eq {a b : Char} (h : a.toNat = b.toNat) : a = b := by
  have ha := Char.ofNat_toNat a
  have hb := Char.ofNat_toNat b
  rw [← ha, ← hb, h]

theorem charUp_toNat (c : Char) :
    (charUp c).toNat = if 97 ≤ c.toNat ∧ c.toNat ≤ 122 then c.toNat - 32 else c.toNat := by
  by_cases h : 97 ≤ c.toNat ∧ c.toNat ≤ 122
  · simp only [charUp, if_pos h]
    exact toNat_ofNat_of_lt (by omega)
  · simp only [charUp, if_neg h]

theorem charDown_toNat (c : Char) :
    (charDown c).toNat = if 65 ≤ c.toNat ∧ c.toNat ≤ 90 then c.toNat + 32 else c.toNat := by
  by_cases h : 65 ≤ c.toNat ∧ c.toNat ≤ 90
  · simp only [charDown, if_pos h]
    exact toNat_ofNat_of_lt (by omega)
  · simp only [charDown, if_neg h]

theorem charUp_idem (c : Char) : charUp (charUp c) = charUp c := by
  apply char_eq_of_toNat_eq
  rw [charUp_toNat, charUp_toNat]
  split_ifs <;> omega

theorem charDown_idem (c : Char) : charDown (charDown c) = charDown c := by
  apply char_eq_of_toNat_eq
  rw [charDown_toNat, charDown_toNat]
  split_ifs <;> omega

theorem toNat_ne_of_ne_sharp {c : Char} (h : c ≠ 'ß') : c.toNat ≠ 223 := by
  intro hn
  exact h (char_eq_of_toNat_eq (by rw [hn]; rfl))

theorem charUp_ne_sharp (c : Char) (h : c ≠ 'ß') : charUp c ≠ 'ß' := by
  intro hc
  have h223 : (charUp c).toNat = 223 := by rw [hc]; rfl
  rw [charUp_toNat] at h223
  have := toNat_ne_of_ne_sharp h
  split_ifs at h223 <;> omega

theorem charDown_ne_sharp (c : Char) (h : c ≠ 'ß') : charDown c ≠ 'ß' := by
  intro hc
  have h223 : (charDown c).toNat = 223 := by rw [hc]; rfl
  rw [charDown_toNat] at h223
  have := toNat_ne_of_ne_sharp h
  split_ifs at h223 <;> omega

theorem isWordChar_spec (c : Char) :
    isWordChar c = true ↔
      (48 ≤ c.toNat ∧ c.toNat ≤ 57) ∨ (65 ≤ c.toNat ∧ c.toNat ≤ 90) ∨
        (97 ≤ c.toNat ∧ c.toNat ≤ 122) ∨ c = 'ß' := by
  simp only [isWordChar, Bool.or_eq_true, Bool.and_eq_true, decide_eq_true_eq]
  tauto

theorem isWordChar_charUp (c : Char) (h : isWordChar c = true) (hs : c ≠ 'ß') :
    isWordChar (charUp c) = true ∧ charUp c ≠ 'ß' := by
  refine ⟨?_, charUp_ne_sharp c hs⟩
  have hc := (isWordChar_spec c).mp h
  rw [isWordChar_spec, charUp_toNat]
  rcases hc with h1 | h1 | h1 | h1
  · rw [if_neg (by omega)]
    exact Or.inl h1
  · rw [if_neg (by omega)]
    exact Or.inr (Or.inl h1)
  · rw [if_pos h1]
    exact Or.inr (Or.inl (by omega))
  · exact absurd h1 hs

theorem isWordChar_charDown (c : Char) (h : isWordChar c = true) (hs : c ≠ 'ß') :
    isWordChar (charDown c) = true ∧ charDown c ≠ 'ß' := by
  refine ⟨?_, charDown_ne_sharp c hs⟩
  have hc := (isWordChar_spec c).mp h
  rw [isWordChar_spec, charDown_toNat]
  rcases hc with h1 | h1 | h1 | h1
  · rw [if_neg (by omega)]
    exact Or.inl h1
  · rw [if_pos h1]
    exact Or.inr (Or.inr (Or.inl (by omega)))
  · rw [if_neg (by omega)]
    exact Or.inr (Or.inr (Or.inl h1))
  · exact absurd h1 hs

/-! ### Claim C8 — word-segmentation lemmas -/

theorem splitWords_nil : splitWords [] = [] := by
  simp [splitWords]

theorem splitWords_cons (c : Char) (cs : List Char) :
    splitWords (c :: cs) =
      if isWordChar c then
        (c :: cs.takeWhile isWordChar) :: splitWords (cs.dropWhile isWordChar)
      else splitWords cs := by
  simp [splitWords]

/-- Every word produced by `splitWords` is a nonempty run of word
characters drawn from the input. -/
theorem splitWords_words (l : List Char) :
    ∀ w ∈ splitWords l,
      (w ≠ [] ∧ ∀ c ∈ w, isWordChar c = true) ∧ ∀ c ∈ w, c ∈ l := by
  induction l using splitWords.induct with
  | case1 =>
    simp [splitWords_nil]
  | case2 c cs h ih =>
    rw [splitWords_cons, if_pos h]
    intro w hw
    rcases List.mem_cons.mp hw with hw | hw
    · subst hw
      refine ⟨⟨List.cons_ne_nil _ _, ?_⟩, ?_⟩
      · intro c2 hc2
        rcases List.mem_cons.mp hc2 with rfl | hc2
        · exact h
        · exact List.mem_takeWhile_imp hc2
      · intro c2 hc2
        rcases List.mem_cons.mp hc2 with rfl | hc2
        · exact List.mem_cons_self _ _
        · exact List.mem_cons_of_mem c ((List.takeWhile_sublist _).subset hc2)
    · obtain ⟨h1, h2⟩ := ih w hw
      refine ⟨h1, fun c2 hc2 => ?_⟩
      exact List.mem_cons_of_mem c ((List.dropWhile_suffix _).sublist.subset (h2 c2 hc2))
  | case3 c cs h ih =>
    rw [splitWords_cons, if_neg h]
    intro w hw
    exact ⟨(ih w hw).1, fun c2 hc2 => List.mem_cons_of_mem c ((ih w hw).2 c2 hc2)⟩

theorem takeWhile_append_not {p : Char → Bool} (w t : List Char) (x : Char)
    (hw : ∀ c ∈ w, p c = true) (hx : p x = false) :
    (w ++ x :: t).takeWhile p = w ∧ (w ++ x :: t).dropWhile p = x :: t := by
  induction w with
  | nil =>
    simp [List.takeWhile_cons, List.dropWhile_cons, hx]
  | cons a w ih =>
    have ha : p a = true := hw a (List.mem_cons_self _ _)
    have ihw := ih (fun c hc => hw c (List.mem_cons_of_mem a hc))
    simp [List.takeWhile_cons, List.dropWhile_cons, ha, ihw.1, ihw.2]

theorem splitWords_single (w : List Char) (hne : w ≠ [])
    (hall : ∀ c ∈ w, isWordChar c = true) : splitWords w = [w] := by
  cases w with
  | nil => exact absurd rfl hne
  | cons c cs =>
    rw [splitWords_cons, if_pos (hall c (List.mem_cons_self _ _))]
    rw [List.takeWhile_eq_self_iff.mpr (fun x hx => hall x (List.mem_cons_of_mem c hx))]
    rw [List.dropWhile_eq_nil_iff.mpr (fun x hx => hall x (List.mem_cons_of_mem c hx))]
    rw [splitWords_nil]

theorem splitWords_word_append (w t : List Char) (x : Char) (hne : w ≠ [])
    (hall : ∀ c ∈ w, isWordChar c = true) (hx : isWordChar x = false) :
    splitWords (w ++ x :: t) = w :: splitWords t := by
  cases w with
  | nil => exact absurd rfl hne
  | cons c cs =>
    rw [List.cons_append, splitWords_cons, if_pos (hall c (List.mem_cons_self _ _))]
    have htw := takeWhile_append_not cs t x
      (fun a ha => hall a (List.mem_cons_of_mem c ha)) hx
    rw [htw.1, htw.2]
    rw [splitWords_cons, if_neg (by simp [hx])]

theorem splitWords_joinWords (ws : List (List Char))
    (h : ∀ w ∈ ws, w ≠ [] ∧ ∀ c ∈ w, isWordChar c = true) :
    splitWords (joinWords ws) = ws := by
  induction ws with
  | nil => simp [joinWords, splitWords_nil]
  | cons w ws ih =>
    cases ws with
    | nil =>
      have hw := h w (List.mem_cons_self _ _)
      exact splitWords_single w hw.1 hw.2
    | cons w2 ws2 =>
      have hw := h w (List.mem_cons_self _ _)
      have hjoin : joinWords (w :: w2 :: ws2) = w ++ ' ' :: joinWords (w2 :: ws2) := by
        simp [joinWords]
      rw [hjoin, splitWords_word_append w _ ' ' hw.1 hw.2 (by decide)]
      rw [ih (fun u hu => h u (List.mem_cons_of_mem w hu))]

/-! ### Claim C8 — capitalize idempotence off the sharp s -/

theorem flatten_map_rustToLowercase (cs : List Char) :
    (cs.map rustToLowercase).flatten = cs.map charDown := by
  induction cs with
  | nil => rfl
  | cons a cs ih => simp [rustToLowercase, ih]

theorem capitalizeWord_cons (c : Char) (cs : List Char) (h : c ≠ 'ß') :
    capitalizeWord (c :: cs) = charUp c :: cs.map charDown := by
  simp [capitalizeWord, rustToUppercase, h, flatten_map_rustToLowercase]

theorem capitalizeWord_ne_nil (w : List Char) (h : w ≠ []) : capitalizeWord w ≠ [] := by
  cases w with
  | nil => exact absurd rfl h
  | cons c cs =>
    simp only [capitalizeWord, rustToUppercase]
    split_ifs <;> simp

theorem capitalizeWord_chars (w : List Char) (hall : ∀ c ∈ w, isWordChar c = true)
    (hs : 'ß' ∉ w) :
    ∀ c2 ∈ capitalizeWord w, isWordChar c2 = true ∧ c2 ≠ 'ß' := by
  cases w with
  | nil => simp [capitalizeWord]
  | cons c cs =>
    have hc : c ≠ 'ß' := fun h => hs (h ▸ List.mem_cons_self _ _)
    rw [capitalizeWord_cons c cs hc]
    intro c2 hc2
    rcases List.mem_cons.mp hc2 with rfl | hc2
    · exact isWordChar_charUp c (hall c (List.mem_cons_self _ _)) hc
    · obtain ⟨a, ha, rfl⟩ := List.mem_map.mp hc2
      have has : a ≠ 'ß' := fun h => hs (h ▸ List.mem_cons_of_mem c ha)
      exact isWordChar_charDown a (hall a (List.mem_cons_of_mem c ha)) has

theorem capitalizeWord_idem (w : List Char) (hs : 'ß' ∉ w) :
    capitalizeWord (capitalizeWord w) = capitalizeWord w := by
  cases w with
  | nil => rfl
  | cons c cs =>
    have hc : c ≠ 'ß' := fun h => hs (h ▸ List.mem_cons_self _ _)
    rw [capitalizeWord_cons c cs hc]
    rw [capitalizeWord_cons (charUp c) _ (charUp_ne_sharp c hc)]
    rw [charUp_idem, List.map_map]
    congr 1
    exact List.map_congr_left (fun a _ => by
      simp only [Function.comp_apply, charDown_idem])

theorem capListFn_idem (l : List Char) (hs : 'ß' ∉ l) :
    capListFn (capListFn l) = capListFn l := by
  unfold capListFn
  have hw := splitWords_words l
  have hsplit :
      splitWords (joinWords ((splitWords l).map capitalizeWord)) =
        (splitWords l).map capitalizeWord := by
    apply splitWords_joinWords
    intro w2 hw2
    obtain ⟨w, hwmem, rfl⟩ := List.mem_map.mp hw2
    have hsub : 'ß' ∉ w := fun hmem => hs ((hw w hwmem).2 'ß' hmem)
    refine ⟨capitalizeWord_ne_nil w (hw w hwmem).1.1, fun c hc => ?_⟩
    exact (capitalizeWord_chars w (hw w hwmem).1.2 hsub c hc).1
  rw [hsplit, List.map_map]
  congr 1
  apply List.map_congr_left
  intro w hwmem
  have hsub : 'ß' ∉ w := fun hmem => hs ((hw w hwmem).2 'ß' hmem)
  simp only [Function.comp_apply]
  exact capitalizeWord_idem w hsub

theorem capitalizeFn_idem (s : String) (hs : 'ß' ∉ s.data) :
    capitalizeFn (capitalizeFn s) = capitalizeFn s :=
  congrArg String.mk (capListFn_idem s.data hs)

/-! ### Claim C8 — trim idempotence -/

theorem dropWhile_head_false {α : Type} (p : α → Bool) (l : List α) (x : α)
    (h : (l.dropWhile p).head? = some x) : p x = false := by
  have hd := List.head?_dropWhile_not p l
  rw [h] at hd
  exact hd

theorem dropWhile_eq_self_of_head {α : Type} (p : α → Bool) (l : List α)
    (h : ∀ x, l.head? = some x → p x = false) : l.dropWhile p = l := by
  cases l with
  | nil => rfl
  | cons a t => exact List.dropWhile_cons_of_neg (by simp [h a rfl])

theorem getLast?_dropWhile {α : Type} (p : α → Bool) (l : List α)
    (h : l.dropWhile p ≠ []) : (l.dropWhile p).getLast? = l.getLast? := by
  induction l with
  | nil => exact absurd rfl h
  | cons a t ih =>
    by_cases hp : p a = true
    · rw [List.dropWhile_cons_of_pos hp] at h ⊢
      rw [ih h]
      cases t with
      | nil => exact absurd rfl h
      | cons b t2 => rw [List.getLast?_cons_cons]
    · rw [List.dropWhile_cons_of_neg hp]

theorem trimList_idem (l : List Char) : trimList (trimList l) = trimList l := by
  by_cases hr : (l.dropWhile isRustWhitespace).reverse.dropWhile isRustWhitespace = []
  · have h0 : trimList l = [] := by unfold trimList; rw [hr]; rfl
    rw [h0]
    rfl
  · have h2 : ∀ x,
        ((l.dropWhile isRustWhitespace).reverse.dropWhile isRustWhitespace).head? =
          some x → isRustWhitespace x = false :=
      fun x hx => dropWhile_head_false _ _ x hx
    have h3 : ∀ x, (trimList l).head? = some x → isRustWhitespace x = false := by
      intro x hx
      unfold trimList at hx
      rw [List.head?_reverse, getLast?_dropWhile _ _ hr, List.getLast?_reverse] at hx
      exact dropWhile_head_false _ _ x hx
    have h4 : (trimList l).dropWhile isRustWhitespace = trimList l :=
      dropWhile_eq_self_of_head _ _ h3
    calc trimList (trimList l)
        = (((trimList l).dropWhile isRustWhitespace).reverse.dropWhile
            isRustWhitespace).reverse := rfl
      _ = ((trimList l).reverse.dropWhile isRustWhitespace).reverse := by rw [h4]
      _ = ((((l.dropWhile isRustWhitespace).reverse.dropWhile
            isRustWhitespace).reverse.reverse).dropWhile isRustWhitespace).reverse := rfl
      _ = (((l.dropWhile isRustWhitespace).reverse.dropWhile
            isRustWhitespace).dropWhile isRustWhitespace).reverse := by
            rw [List.reverse_reverse]
      _ = ((l.dropWhile isRustWhitespace).reverse.dropWhile isRustWhitespace).reverse := by
            rw [dropWhile_eq_self_of_head _ _ h2]
      _ = trimList l := rfl

theorem trimFn_idem (s : String) : trimFn (trimFn s) = trimFn s :=
  congrArg String.mk (trimList_idem s.data)

/-! ### Claim C8 — the claim theorems -/

/-- C8 counterexample: Capitalize is *not* idempotent on every string.
Rust `char::to_uppercase` expands `'ß'` to `"SS"`, so one application
of the capitalize transformer yields `"SS"`, while a second
application lowercases the second letter to give `"Ss"`. -/
theorem capitalize_transform_not_idempotent :
    ({} : CapitalizeTransformer).transform "ß" "Last Name" 2 = .ok (some "SS") ∧
    ({} : CapitalizeTransformer).transform "SS" "Last Name" 2 = .ok (some "Ss") ∧
    ("Ss" : String) ≠ "SS" := by
  refine ⟨?_, ?_, by decide⟩
  · simp only [CapitalizeTransformer.transform, TransformResult.present, capitalizeFn,
      capListFn]
    rw [show (splitWords "ß".data) = [['ß']] from by
          simp [splitWords_cons, splitWords_nil, isWordChar]]
    rfl
  · simp only [CapitalizeTransformer.transform, TransformResult.present, capitalizeFn,
      capListFn]
    rw [show (splitWords "SS".data) = [['S', 'S']] from by
          simp [splitWords_cons, splitWords_nil, isWordChar, List.takeWhile,
            List.dropWhile]]
    rfl

/-- C8 (amended): applying the trim transformer to its own output
yields the same result as applying it once, for every input; the same
holds for the capitalize transformer on every input string that does
not contain a character with a multi-character uppercase expansion
(such as `'ß'`). -/
theorem trim_capitalize_idempotent :
    (∀ (v field_name : String) (n : Nat),
      ({} : TrimTransformer).transform (trimFn v) field_name n =
        .ok (some (trimFn v))) ∧
    (∀ (v field_name : String) (n : Nat), 'ß' ∉ v.data →
      ({} : CapitalizeTransformer).transform (capitalizeFn v) field_name n =
        .ok (some (capitalizeFn v))) := by
  constructor
  · intro v field_name n
    simp only [TrimTransformer.transform, TransformResult.present, trimFn_idem]
  · intro v field_name n hv
    simp only [CapitalizeTransformer.transform, TransformResult.present,
      capitalizeFn_idem v hv]

/-- Witness for C8 at concrete inputs. -/
theorem trim_capitalize_idempotent_witness :
    ({} : TrimTransformer).transform (trimFn "  a b ") "F" 2 =
      .ok (some (trimFn "  a b ")) ∧
    ({} : CapitalizeTransformer).transform (capitalizeFn "john SNOW") "F" 2 =
      .ok (some (capitalizeFn "john SNOW")) :=
  ⟨trim_capitalize_idempotent.1 "  a b " "F" 2,
   trim_capitalize_idempotent.2 "john SNOW" "F" 2 (by decide)⟩

end CsvSanity
